import Mathlib

/-
Verification of the Agentique browser extension against its specification.

The development shallowly embeds the JavaScript sources:
  src/content-scripts/role-injector.js  (platform registry, merge, formatter,
                                         dropdown grouping, polling loop)
  src/services/role-storage.js and src/unnamed/part_001  (role storage CRUD)

Modelling conventions:
  strings are Lean String (a structure over List Char); JavaScript trim is
  embedded with Char.isWhitespace, which covers the space, tab, carriage
  return and line feed characters appearing in this code base; a JavaScript
  value that may be undefined is an Option; falsy-or defaults (the JS x || d
  idiom) are explicit functions; asynchronous storage outcomes are an
  explicit result type; timer behaviour is embedded as a discrete schedule
  in milliseconds.
-/

namespace Agentique

/-- Characterwise trim of a char list: drop whitespace from the left, then
from the right, embedding the trim() call in role-injector.js line 97. -/
def trimChars (l : List Char) : List Char :=
  (((l.dropWhile Char.isWhitespace).reverse.dropWhile Char.isWhitespace)).reverse

/-- Embedding of String.prototype.trim as used by setPromptValue. -/
def jsTrim (s : String) : String :=
  String.mk (trimChars s.data)

/-- Scan of a haystack char list for an occurrence of the pattern list,
embedding String.prototype.includes. -/
def seqContains (pat : List Char) : List Char → Bool
  | [] => pat.isPrefixOf []
  | a :: t => pat.isPrefixOf (a :: t) || seqContains pat t

/-- Embedding of hostname.includes(pattern) from detectPlatform
(role-injector.js line 61). -/
def jsIncludes (s pat : String) : Bool :=
  seqContains pat.data s.data

/-- Embedding of Array.prototype.join with a separator, used by
formatRoleForInjection (sections.join and contextParts.join). -/
def joinSep (sep : String) : List String → String
  | [] => ""
  | [a] => a
  | a :: b :: rest => a ++ sep ++ joinSep sep (b :: rest)

/-- Merge of new text into the current prompt surface content, embedding
setPromptValue lines 96 to 98 of role-injector.js:
the separator is a blank line when the trimmed current text is truthy
(non-empty) and nothing otherwise, and the combined text is
currentText + separator + text. -/
def mergeText (currentText text : String) : String :=
  currentText ++ (if jsTrim currentText ≠ "" then "\n\n" else "") ++ text

/-- Platform descriptor from the PLATFORMS table of role-injector.js. -/
structure PlatformDescriptor where
  name : String
  hostPatterns : List String
  promptInput : String
  inputContainer : String
  isContentEditable : Bool
deriving DecidableEq

/-- The ChatGPT entry of the PLATFORMS table (role-injector.js lines 9-17). -/
def CHATGPT : PlatformDescriptor :=
  { name := "ChatGPT"
    hostPatterns := ["chat.openai.com", "chatgpt.com"]
    promptInput := "#prompt-textarea, textarea[data-id], div[contenteditable=\"true\"][data-testid=\"textbox\"]"
    inputContainer := "main"
    isContentEditable := true }

/-- The Claude entry of the PLATFORMS table (role-injector.js lines 18-26). -/
def CLAUDE : PlatformDescriptor :=
  { name := "Claude"
    hostPatterns := ["claude.ai"]
    promptInput := "div[contenteditable=\"true\"][data-placeholder*=\"message\"], div.ProseMirror[contenteditable=\"true\"]"
    inputContainer := "div[class*=\"InputContainer\"], fieldset"
    isContentEditable := true }

/-- The Gemini entry of the PLATFORMS table (role-injector.js lines 27-35). -/
def GEMINI : PlatformDescriptor :=
  { name := "Gemini"
    hostPatterns := ["gemini.google.com"]
    promptInput := "div[contenteditable=\"true\"].ql-editor, rich-textarea[class*=\"input-area\"]"
    inputContainer := "div[class*=\"input-area-container\"]"
    isContentEditable := true }

/-- The Grok entry of the PLATFORMS table (role-injector.js lines 36-44). -/
def GROK : PlatformDescriptor :=
  { name := "Grok"
    hostPatterns := ["grok.com", "x.com", "twitter.com"]
    promptInput := "textarea[placeholder*=\"Ask\" i], textarea[placeholder*=\"message\" i], textarea[class*=\"input\"], textarea[data-testid*=\"input\"], div[contenteditable=\"true\"], textarea"
    inputContainer := "div.query-bar, form, main"
    isContentEditable := false }

/-- The PLATFORMS registry in object-literal insertion order, which is the
order Object.entries enumerates in detectPlatform. -/
def PLATFORMS : List PlatformDescriptor :=
  [CHATGPT, CLAUDE, GEMINI, GROK]

/-- Loop body of detectPlatform: return the first platform one of whose
host patterns occurs inside the hostname (role-injector.js lines 60-64). -/
def detectPlatformAux (hostname : String) : List PlatformDescriptor → Option PlatformDescriptor
  | [] => none
  | p :: rest =>
    if p.hostPatterns.any (fun pattern => jsIncludes hostname pattern) then some p
    else detectPlatformAux hostname rest

/-- Embedding of detectPlatform (role-injector.js lines 57-67), with the
hostname passed explicitly instead of read from window.location. -/
def detectPlatform (hostname : String) : Option PlatformDescriptor :=
  detectPlatformAux hostname PLATFORMS

/-- A stored role record, following the schema comment of
role-storage.js lines 6-21. -/
structure Role where
  id : String
  name : String
  area : String
  description : String
  skills : List String
  tools : List String
  constraints : List String
  behavior : String
  moreInfo : String
  createdAt : Nat
  updatedAt : Nat
deriving DecidableEq

/-- Role Context body parts of formatRoleForInjection
(role-injector.js lines 151-179): one part per populated field, in source
order, with list fields rendered as bulleted lines. -/
def contextParts (role : Role) : List String :=
  (if role.area ≠ "" then ["Area: " ++ role.area] else [])
  ++ (if role.description ≠ "" then ["Description: " ++ role.description] else [])
  ++ (if role.skills ≠ [] then
        ["Skills:\n" ++ joinSep "\n" (role.skills.map (fun s => "- " ++ s))] else [])
  ++ (if role.tools ≠ [] then
        ["Tools:\n" ++ joinSep "\n" (role.tools.map (fun t => "- " ++ t))] else [])
  ++ (if role.constraints ≠ [] then
        ["Constraints:\n" ++ joinSep "\n" (role.constraints.map (fun c => "- " ++ c))] else [])
  ++ (if role.behavior ≠ "" then ["Behavior & Tonality: " ++ role.behavior] else [])
  ++ (if role.moreInfo ≠ "" then ["Additional Information: " ++ role.moreInfo] else [])

/-- Embedding of formatRoleForInjection (role-injector.js lines 137-190,
identical to src/unnamed/part_001 lines 203-256): the pushed sections list
joined with newlines. -/
def formatRoleForInjection (role : Role) : String :=
  joinSep "\n"
    ["Role: " ++ role.name, "", "",
     "Task: [Describe your task here]", "", "",
     "Role Context:",
     joinSep "\n\n" (contextParts role), "", "",
     "More Context: [Add any additional context, data, or background information here]"]

/-- Partial role input to the storage layer: every schema field may be
absent, as in the Partial(Role) parameter of saveRole and createRole. -/
structure RoleData where
  id : Option String
  name : Option String
  area : Option String
  description : Option String
  skills : Option (List String)
  tools : Option (List String)
  constraints : Option (List String)
  behavior : Option String
  moreInfo : Option String
  createdAt : Option Nat
  updatedAt : Option Nat
deriving DecidableEq

/-- A RoleData with every field absent. -/
def emptyRoleData : RoleData :=
  { id := none, name := none, area := none, description := none,
    skills := none, tools := none, constraints := none,
    behavior := none, moreInfo := none, createdAt := none, updatedAt := none }

/-- The JS falsy-or on an optional string: x || d yields d when x is
undefined or the empty string. -/
def jsOrStr : Option String → String → String
  | some s, d => if s = "" then d else s
  | none, d => d

/-- The JS falsy-or on an optional number: x || d yields d when x is
undefined or 0. -/
def jsOrNat : Option Nat → Nat → Nat
  | some n, d => if n = 0 then d else n
  | none, d => d

/-- The JS falsy-or on an optional array: any present array (also an empty
one) is truthy and is kept. -/
def jsOrList : Option (List String) → List String → List String
  | some l, _ => l
  | none, d => d

/-- Embedding of createRole (role-storage.js lines 39-54), with the current
time and the value produced by generateId passed explicitly. -/
def createRole (data : RoleData) (now : Nat) (freshId : String) : Role :=
  { id := jsOrStr data.id freshId
    name := jsOrStr data.name ""
    area := jsOrStr data.area ""
    description := jsOrStr data.description ""
    skills := jsOrList data.skills []
    tools := jsOrList data.tools []
    constraints := jsOrList data.constraints []
    behavior := jsOrStr data.behavior ""
    moreInfo := jsOrStr data.moreInfo ""
    createdAt := jsOrNat data.createdAt now
    updatedAt := jsOrNat data.updatedAt now }

/-- Embedding of the update branch of saveRole: the object spread
of roleData over the existing role, with updatedAt written last
(role-storage.js lines 120-124). A field present in roleData overrides the
stored value; updatedAt always becomes the current time. -/
def spreadRole (r : Role) (d : RoleData) (now : Nat) : Role :=
  { id := d.id.getD r.id
    name := d.name.getD r.name
    area := d.area.getD r.area
    description := d.description.getD r.description
    skills := d.skills.getD r.skills
    tools := d.tools.getD r.tools
    constraints := d.constraints.getD r.constraints
    behavior := d.behavior.getD r.behavior
    moreInfo := d.moreInfo.getD r.moreInfo
    createdAt := d.createdAt.getD r.createdAt
    updatedAt := now }

/-- Keep an untouched role in front of the result of updating the rest of
the store, propagating the not-found outcome. -/
def consSnd (r : Role) : Option (Role × List Role) → Option (Role × List Role)
  | some (role, rest2) => some (role, r :: rest2)
  | none => none

/-- Search for the first stored role whose id equals roleData.id and replace
it in place, embedding the findIndex plus assignment of saveRole
(role-storage.js lines 115-125); none when no stored role matches. -/
def saveRoleGo (d : RoleData) (now : Nat) : List Role → Option (Role × List Role)
  | [] => none
  | r :: rest =>
    if d.id = some r.id then
      some (spreadRole r d now, spreadRole r d now :: rest)
    else
      consSnd r (saveRoleGo d now rest)

/-- Embedding of saveRole (role-storage.js lines 113-149): update the first
role matching roleData.id, else append a newly created role. Returns the
saved role and the new stored sequence. -/
def saveRole (roles : List Role) (d : RoleData) (now : Nat) (freshId : String) :
    Role × List Role :=
  match saveRoleGo d now roles with
  | some res => res
  | none =>
    let role := createRole d now freshId
    (role, roles ++ [role])

/-- Embedding of deleteRole (role-storage.js lines 156-176): filter out the
id; when nothing was removed report false and write nothing, else persist
the filtered sequence and report true. Returns the flag and the stored
sequence after the call. -/
def deleteRole (roles : List Role) (id : String) : Bool × List Role :=
  let filteredRoles := roles.filter (fun r => r.id != id)
  if filteredRoles.length = roles.length then (false, roles)
  else (true, filteredRoles)

/-- The ids of the stored roles. -/
def idsOf (roles : List Role) : List String :=
  roles.map Role.id

/-- One storage mutation: a saveRole call (with its explicit clock value and
generated id) or a deleteRole call. -/
inductive StoreOp where
  | save : RoleData → Nat → String → StoreOp
  | erase : String → StoreOp
deriving DecidableEq

/-- Replay a sequence of storage operations over a stored sequence. -/
def applyOps (roles : List Role) : List StoreOp → List Role
  | [] => roles
  | StoreOp.save d now freshId :: rest => applyOps (saveRole roles d now freshId).2 rest
  | StoreOp.erase id :: rest => applyOps (deleteRole roles id).2 rest

/-- The contract of generateId along a replay: every id supplied for a save
is non-empty and does not occur in the store at the moment of that save. -/
def freshOk (roles : List Role) : List StoreOp → Bool
  | [] => true
  | StoreOp.save d now freshId :: rest =>
    (freshId != "" && !((idsOf roles).contains freshId))
      && freshOk (saveRole roles d now freshId).2 rest
  | StoreOp.erase id :: rest => freshOk (deleteRole roles id).2 rest

/-- Whether every save of the operation sequence supplies a non-empty name,
as the role editor modal guarantees before calling onSave. -/
def namesOk : List StoreOp → Bool
  | [] => true
  | StoreOp.save d _ _ :: rest => (match d.name with
      | some s => s != ""
      | none => false) && namesOk rest
  | StoreOp.erase _ :: rest => namesOk rest

/-- Lexicographic comparison of char lists by code point, the order realised
by the comparison-free Array.prototype.sort() on strings. -/
def lexLe : List Char → List Char → Bool
  | [], _ => true
  | _ :: _, [] => false
  | a :: as, b :: bs =>
    if a.toNat < b.toNat then true
    else if a.toNat = b.toNat then lexLe as bs
    else false

/-- Lexicographic order on strings. -/
def strLe (a b : String) : Prop :=
  lexLe a.data b.data = true

instance : DecidableRel strLe :=
  fun a b => inferInstanceAs (Decidable (lexLe a.data b.data = true))

/-- An element rendered into the role dropdown: an area header or a role
item (showRoleDropdown, role-injector.js lines 277-295). -/
inductive DropdownEntry where
  | areaHeader : String → DropdownEntry
  | roleItem : Role → DropdownEntry
deriving DecidableEq

/-- Append a role under its area key in the accumulated groups, creating the
key at the end on first occurrence: the body of the grouping forEach
(role-injector.js lines 266-275) for a role with a truthy area. -/
def addToGroup : List (String × List Role) → String → Role → List (String × List Role)
  | [], a, r => [(a, [r])]
  | (b, rs) :: t, a, r =>
    if b = a then (b, rs ++ [r]) :: t
    else (b, rs) :: addToGroup t a r

/-- One step of the grouping forEach of showRoleDropdown: a role with a
truthy area goes into rolesByArea, the rest into rolesWithoutArea. -/
def groupStep (acc : List (String × List Role) × List Role) (r : Role) :
    List (String × List Role) × List Role :=
  if r.area ≠ "" then (addToGroup acc.1 r.area r, acc.2)
  else (acc.1, acc.2 ++ [r])

/-- The grouping loop of showRoleDropdown: rolesByArea (as an association
list in key insertion order) and rolesWithoutArea. -/
def groupRoles (roles : List Role) : List (String × List Role) × List Role :=
  roles.foldl groupStep ([], [])

/-- Lookup rolesByArea[area]. -/
def lookupGroup : List (String × List Role) → String → List Role
  | [], _ => []
  | (b, rs) :: t, a => if b = a then rs else lookupGroup t a

/-- Object.keys(rolesByArea): the area names in key insertion order. -/
def areaKeys (roles : List Role) : List String :=
  (groupRoles roles).1.map Prod.fst

/-- Object.keys(rolesByArea).sort(): the area names sorted lexicographically
(role-injector.js line 284). -/
def sortedAreas (roles : List Role) : List String :=
  List.insertionSort strLe (areaKeys roles)

/-- The rendering order of showRoleDropdown (role-injector.js lines 263-295):
roles without an area first, then for every area in sorted order an area
header followed by that area's roles. -/
def dropdownEntries (roles : List Role) : List DropdownEntry :=
  ((groupRoles roles).2.map DropdownEntry.roleItem)
    ++ (sortedAreas roles).flatMap
        (fun a => DropdownEntry.areaHeader a
          :: (lookupGroup (groupRoles roles).1 a).map DropdownEntry.roleItem)

/-- Outcome of one chrome.storage read: a rejected promise (or timeout), a
missing key (undefined), or the stored value. -/
inductive StorageReadResult where
  | failure : StorageReadResult
  | absent : StorageReadResult
  | value : List Role → StorageReadResult
deriving DecidableEq

/-- The awaited chrome.storage.local.get of getAllRoles
(src/unnamed/part_001 lines 88-91), as a fallible computation: a rejection
becomes an error, a missing key an absent value. -/
def storageLocalGet : StorageReadResult → Except String (Option (List Role))
  | StorageReadResult.failure => Except.error "Storage operation timeout"
  | StorageReadResult.absent => Except.ok none
  | StorageReadResult.value roles => Except.ok (some roles)

/-- Embedding of getAllRoles (src/unnamed/part_001 lines 85-97, the catch-all
variant also present in role-storage.js lines 87-96): the try body returns
result[STORAGE_KEY] || [] and the catch branch returns []. -/
def getAllRoles (outcome : StorageReadResult) : List Role :=
  match storageLocalGet outcome with
  | Except.ok result => result.getD []
  | Except.error _ => []

/-- Polling period of the waitForPrompt interval (role-injector.js
line 409). -/
def POLL_INTERVAL_MS : Nat := 1000

/-- Lifetime of the interval before the scheduled clearInterval fires
(role-injector.js line 412). -/
def POLL_TIMEOUT_MS : Nat := 30000

/-- Times (in ms since initializeInjector ran) at which the waitForPrompt
callback executes, starting from tick number k: the interval fires at each
multiple of its period; a tick that finds the prompt element clears the
interval itself (role-injector.js lines 394-409); the timeout scheduled at
30000 ms clears it otherwise, so no tick later than that executes. The
predicate found says whether findPromptElement returns an element at a given
time. -/
def pollTimes (found : Nat → Bool) (k : Nat) : List Nat :=
  if POLL_INTERVAL_MS * k ≤ POLL_TIMEOUT_MS then
    if found (POLL_INTERVAL_MS * k) then [POLL_INTERVAL_MS * k]
    else POLL_INTERVAL_MS * k :: pollTimes found (k + 1)
  else []
termination_by POLL_TIMEOUT_MS + 1 - POLL_INTERVAL_MS * k
decreasing_by simp [POLL_INTERVAL_MS, POLL_TIMEOUT_MS] at *; omega

/-- All times at which one page load's waitForPrompt callback executes: the
first tick is one period after registration. -/
def runPolls (found : Nat → Bool) : List Nat :=
  pollTimes found 1

/-- A minimal stored role with the given name and area and all other
content fields empty. -/
def plainRole (id name area : String) : Role :=
  { id := id, name := name, area := area, description := "", skills := [],
    tools := [], constraints := [], behavior := "", moreInfo := "",
    createdAt := 1, updatedAt := 1 }

/-- A role with only the name populated, for the formatter claims. -/
def nameOnlyRole : Role :=
  plainRole "r1" "N" ""

/-- Role A of the grouping example: area Eng. -/
def exRoleA : Role := plainRole "idA" "A" "Eng"

/-- Role B of the grouping example: empty area. -/
def exRoleB : Role := plainRole "idB" "B" ""

/-- Role C of the grouping example: area Eng. -/
def exRoleC : Role := plainRole "idC" "C" "Eng"

/-- Role D of the grouping example: area Ops. -/
def exRoleD : Role := plainRole "idD" "D" "Ops"

/-- Input of a save that carries a known id together with its own createdAt
value. -/
def updateData : RoleData :=
  { emptyRoleData with id := some "a", createdAt := some 999 }

/-- Input of a save whose id is unknown to the store. -/
def newIdData : RoleData :=
  { emptyRoleData with id := some "b" }

/-- A concrete well-formed operation trace: one save with a non-empty name
and a fresh generated id, then a delete of an unknown id. -/
def witnessOps : List StoreOp :=
  [StoreOp.save { emptyRoleData with name := some "N" } 5 "role_f",
   StoreOp.erase "nope"]

/-! Helper lemmas about the string embedding. -/

theorem string_empty_append (s : String) : "" ++ s = s :=
  String.ext (by simp [String.data_append])

theorem string_append_empty (s : String) : s ++ "" = s :=
  String.ext (by simp [String.data_append])

theorem seqContains_iff (pat hay : List Char) :
    seqContains pat hay = true ↔ pat <:+: hay := by
  induction hay with
  | nil =>
    simp [seqContains, List.isPrefixOf_iff_prefix, List.infix_nil, List.prefix_nil]
  | cons a t ih =>
    simp [seqContains, Bool.or_eq_true, List.isPrefixOf_iff_prefix, ih,
      List.infix_cons_iff]

theorem jsIncludes_iff (s pat : String) :
    jsIncludes s pat = true ↔ pat.data <:+: s.data :=
  seqContains_iff pat.data s.data

theorem trimChars_eq_nil_iff (l : List Char) :
    trimChars l = [] ↔ ∀ c ∈ l, c.isWhitespace = true := by
  unfold trimChars
  rw [List.reverse_eq_nil_iff, List.dropWhile_eq_nil_iff]
  constructor
  · intro h c hc
    have hsplit := List.takeWhile_append_dropWhile Char.isWhitespace l
    rw [← hsplit] at hc
    rcases List.mem_append.mp hc with htake | hdrop
    · exact List.mem_takeWhile_imp htake
    · exact h c (List.mem_reverse.mpr hdrop)
  · intro h c hc
    have hsub : c ∈ l.dropWhile Char.isWhitespace :=
      List.mem_reverse.mp hc
    exact h c ((List.dropWhile_sublist Char.isWhitespace).subset hsub)

theorem jsTrim_eq_empty_iff (s : String) :
    jsTrim s = "" ↔ ∀ c ∈ s.data, c.isWhitespace = true := by
  constructor
  · intro h
    have hd : trimChars s.data = [] := congrArg String.data h
    exact (trimChars_eq_nil_iff s.data).mp hd
  · intro h
    exact String.ext ((trimChars_eq_nil_iff s.data).mpr h)

/-- Claim C1 fails on the code: a surface content that is whitespace-only
but non-empty trims to empty, yet the merged result is not the new text
alone because the original whitespace is kept as a prefix. -/
theorem mergeText_whitespace_kept :
    jsTrim " " = "" ∧ mergeText " " "X" = " X" ∧ mergeText " " "X" ≠ "X" := by
  refine ⟨by decide, by decide, by decide⟩

/-- Claim C1 (amended): when the existing content is empty after trimming
the merge returns the existing content directly followed by the new text
with no separator (so newText alone exactly when the existing content is
the empty string); when the existing content is non-empty after trimming
the merge inserts one blank-line separator. In particular
mergeText of the empty string and X is X, and mergeText of existing and X
is existing, a blank line, then X. -/
theorem mergeText_spec (currentText text : String) :
    (jsTrim currentText = "" → mergeText currentText text = currentText ++ text)
    ∧ (jsTrim currentText ≠ "" →
        mergeText currentText text = currentText ++ "\n\n" ++ text)
    ∧ mergeText "" "X" = "X"
    ∧ mergeText "existing" "X" = "existing\n\nX" := by
  refine ⟨?_, ?_, by decide, by decide⟩
  · intro h
    rw [mergeText, if_neg (by simp [h]), string_append_empty]
  · intro h
    rw [mergeText, if_pos h]

/-- Witness for mergeText_spec at concrete inputs, discharging each of its
hypotheses. -/
theorem mergeText_spec_witness :
    mergeText " " "X" = " " ++ "X" ∧ mergeText "a" "X" = "a" ++ "\n\n" ++ "X" :=
  ⟨(mergeText_spec " " "X").1 (by decide),
   (mergeText_spec "a" "X").2.1 (by decide)⟩

/-- Claim C10: the merged string is exactly the untrimmed existing content,
then a separator, then the new text; the separator is a blank line when the
existing content has a non-whitespace character and empty otherwise; hence
the existing content is a literal prefix of the result and the new text a
literal suffix. -/
theorem mergeText_shape (currentText text : String) :
    mergeText currentText text
      = currentText
        ++ (if currentText.data.any (fun c => !c.isWhitespace) then "\n\n" else "")
        ++ text
    ∧ (∃ t, mergeText currentText text = currentText ++ t)
    ∧ (∃ s, mergeText currentText text = s ++ text) := by
  have hcond : (jsTrim currentText ≠ "")
      ↔ (currentText.data.any (fun c => !c.isWhitespace) = true) := by
    rw [Ne, jsTrim_eq_empty_iff]
    simp [List.any_eq_true, not_forall]
  constructor
  · rw [mergeText, if_congr hcond rfl rfl]
  · constructor
    · refine ⟨(if jsTrim currentText ≠ "" then "\n\n" else "") ++ text, ?_⟩
      rw [mergeText, String.append_assoc]
    · exact ⟨currentText ++ (if jsTrim currentText ≠ "" then "\n\n" else ""), rfl⟩

/-! Platform detection. -/

theorem detectPlatformAux_eq_find (hostname : String) (l : List PlatformDescriptor) :
    detectPlatformAux hostname l
      = l.find? (fun p => p.hostPatterns.any (fun pattern => jsIncludes hostname pattern)) := by
  induction l with
  | nil => rfl
  | cons p rest ih =>
    rw [detectPlatformAux, List.find?_cons]
    by_cases h : p.hostPatterns.any (fun pattern => jsIncludes hostname pattern) = true
    · simp [h]
    · simp only [Bool.not_eq_true] at h
      simp [h, ih]

/-- Claim C3: detectPlatform returns the first registry entry one of whose
host matchers occurs as a substring of the hostname, and none when no
matcher occurs in the hostname; chat.openai.com and chatgpt.com both
resolve to the ChatGPT descriptor and example.com resolves to none. -/
theorem detectPlatform_spec :
    (∀ hostname, detectPlatform hostname
      = PLATFORMS.find?
          (fun p => p.hostPatterns.any (fun pattern => jsIncludes hostname pattern)))
    ∧ (∀ hostname, detectPlatform hostname = none
        ↔ ∀ p ∈ PLATFORMS, ∀ pattern ∈ p.hostPatterns, ¬ pattern.data <:+: hostname.data)
    ∧ detectPlatform "chat.openai.com" = some CHATGPT
    ∧ detectPlatform "chatgpt.com" = some CHATGPT
    ∧ detectPlatform "example.com" = none := by
  refine ⟨fun hostname => detectPlatformAux_eq_find hostname PLATFORMS,
    fun hostname => ?_, by decide, by decide, by decide⟩
  rw [detectPlatform, detectPlatformAux_eq_find, List.find?_eq_none]
  constructor
  · intro h p hp pattern hpat hinf
    have := h p hp
    simp only [Bool.not_eq_true, List.any_eq_false] at this
    have hfalse := this pattern hpat
    rw [← jsIncludes_iff hostname pattern] at hinf
    simp [hinf] at hfalse
  · intro h p hp
    simp only [Bool.not_eq_true, List.any_eq_false]
    intro pattern hpat
    have := h p hp pattern hpat
    rw [← jsIncludes_iff hostname pattern] at this
    simp [this]

/-! Formatting a role for injection. -/

/-- Claim C2 fails on the code: for a role with only the name set the
formatted text still contains the Role Context header (with an empty body)
and a More Context section, so it does not consist of exactly the name line
and the task placeholder. -/
theorem format_name_only_has_context_header :
    jsIncludes (formatRoleForInjection nameOnlyRole) "Role Context:" = true
    ∧ jsIncludes (formatRoleForInjection nameOnlyRole) "More Context:" = true
    ∧ formatRoleForInjection nameOnlyRole
        ≠ "Role: N\n\n\nTask: [Describe your task here]" := by
  refine ⟨by decide, by decide, by decide⟩

/-- Claim C2 (amended): for a role whose name is the only populated field
the formatted text consists of the Role: name line, the task placeholder, a
Role Context header with an empty body, and the More Context placeholder;
no per-field header (Area, Description, Skills, Tools, Constraints,
Behavior & Tonality, Additional Information) is emitted for the absent
fields. -/
theorem format_name_only (role : Role)
    (harea : role.area = "") (hdesc : role.description = "")
    (hskills : role.skills = []) (htools : role.tools = [])
    (hcons : role.constraints = []) (hbeh : role.behavior = "")
    (hmore : role.moreInfo = "") :
    formatRoleForInjection role
      = "Role: " ++ role.name
        ++ "\n\n\nTask: [Describe your task here]\n\n\nRole Context:\n\n\n\nMore Context: [Add any additional context, data, or background information here]" := by
  have hcp : contextParts role = [] := by
    simp [contextParts, harea, hdesc, hskills, htools, hcons, hbeh, hmore]
  rw [formatRoleForInjection, hcp]
  simp only [joinSep]
  rw [String.append_assoc]
  congr 1

/-- Witness for format_name_only at a concrete role. -/
theorem format_name_only_witness :
    formatRoleForInjection nameOnlyRole
      = "Role: " ++ "N"
        ++ "\n\n\nTask: [Describe your task here]\n\n\nRole Context:\n\n\n\nMore Context: [Add any additional context, data, or background information here]" :=
  format_name_only nameOnlyRole rfl rfl rfl rfl rfl rfl rfl

/-! Deleting a role. -/

/-- Claim C6: deleting an id that no stored role carries reports false and
leaves the stored sequence unchanged. -/
theorem deleteRole_not_found (roles : List Role) (id : String)
    (h : ∀ r ∈ roles, r.id ≠ id) :
    deleteRole roles id = (false, roles) := by
  have hfilter : roles.filter (fun r => r.id != id) = roles :=
    List.filter_eq_self.mpr (fun r hr => by simp [h r hr])
  simp [deleteRole, hfilter]

/-- Witness for deleteRole_not_found at a concrete store and id. -/
theorem deleteRole_not_found_witness :
    deleteRole [plainRole "a" "A" ""] "zzz" = (false, [plainRole "a" "A" ""]) :=
  deleteRole_not_found [plainRole "a" "A" ""] "zzz" (by decide)

/-! Reading all roles. -/

/-- Claim C8: getAllRoles is a total function of the storage outcome — a
read failure and a missing key both give the empty sequence, and a stored
value is returned as is, so no storage exception propagates. -/
theorem getAllRoles_total (outcome : StorageReadResult) :
    (outcome = StorageReadResult.failure → getAllRoles outcome = [])
    ∧ (outcome = StorageReadResult.absent → getAllRoles outcome = [])
    ∧ (∀ roles, outcome = StorageReadResult.value roles → getAllRoles outcome = roles) := by
  refine ⟨fun h => ?_, fun h => ?_, fun roles h => ?_⟩ <;> subst h <;> rfl

/-- Witness for getAllRoles_total at each concrete outcome. -/
theorem getAllRoles_total_witness :
    getAllRoles StorageReadResult.failure = []
    ∧ getAllRoles StorageReadResult.absent = []
    ∧ getAllRoles (StorageReadResult.value [nameOnlyRole]) = [nameOnlyRole] :=
  ⟨(getAllRoles_total StorageReadResult.failure).1 rfl,
   (getAllRoles_total StorageReadResult.absent).2.1 rfl,
   (getAllRoles_total (StorageReadResult.value [nameOnlyRole])).2.2 [nameOnlyRole] rfl⟩

/-! Saving a role. -/

theorem saveRoleGo_eq_none_iff (d : RoleData) (now : Nat) (roles : List Role) :
    saveRoleGo d now roles = none ↔ ∀ r ∈ roles, d.id ≠ some r.id := by
  induction roles with
  | nil => simp [saveRoleGo]
  | cons r rest ih =>
    rw [saveRoleGo]
    by_cases h : d.id = some r.id
    · simp [h]
    · rw [if_neg h]
      cases hgo : saveRoleGo d now rest with
      | none =>
        rw [hgo] at ih
        simp only [consSnd, true_iff] at ih ⊢
        simp [h]
        exact ih
      | some res =>
        obtain ⟨ro, rest2⟩ := res
        rw [hgo] at ih
        have hrest : ¬ ∀ x ∈ rest, d.id ≠ some x.id := fun hall =>
          absurd (ih.mpr hall) (by simp)
        constructor
        · intro hcontra
          rw [consSnd] at hcontra
          exact absurd hcontra (by simp)
        · intro hall
          exact absurd (fun x hx => hall x (by simp [hx])) hrest

theorem saveRoleGo_found (d : RoleData) (now : Nat) (pre : List Role) (r : Role)
    (post : List Role) (hpre : ∀ x ∈ pre, d.id ≠ some x.id) (hr : d.id = some r.id) :
    saveRoleGo d now (pre ++ r :: post)
      = some (spreadRole r d now, pre ++ spreadRole r d now :: post) := by
  induction pre with
  | nil => simp [saveRoleGo, hr]
  | cons p t ih =>
    have hp : d.id ≠ some p.id := hpre p (by simp)
    have ih2 := ih (fun x hx => hpre x (by simp [hx]))
    rw [List.cons_append, saveRoleGo, if_neg hp, ih2, consSnd, List.cons_append]

theorem saveRoleGo_some (d : RoleData) (now : Nat) (roles : List Role)
    (role : Role) (roles2 : List Role)
    (h : saveRoleGo d now roles = some (role, roles2)) :
    ∃ pre r post, roles = pre ++ r :: post ∧ (∀ x ∈ pre, d.id ≠ some x.id)
      ∧ d.id = some r.id ∧ role = spreadRole r d now
      ∧ roles2 = pre ++ role :: post := by
  induction roles generalizing roles2 with
  | nil => simp [saveRoleGo] at h
  | cons r rest ih =>
    rw [saveRoleGo] at h
    by_cases hr : d.id = some r.id
    · rw [if_pos hr] at h
      obtain ⟨h1, h2⟩ := Prod.mk.injEq .. ▸ Option.some.injEq .. ▸ h
      exact ⟨[], r, rest, by simp, by simp, hr, h1.symm, by simp [← h2, h1]⟩
    · rw [if_neg hr] at h
      cases hgo : saveRoleGo d now rest with
      | none => rw [hgo, consSnd] at h; exact absurd h (by simp)
      | some res =>
        obtain ⟨ro, rest2⟩ := res
        rw [hgo, consSnd] at h
        obtain ⟨h1, h2⟩ := Prod.mk.injEq .. ▸ Option.some.injEq .. ▸ h
        obtain ⟨pre, rm, post, heq, hpre, hid, hrole, hrest⟩ :=
          ih rest2 (by rw [hgo, h1])
        refine ⟨r :: pre, rm, post, by simp [heq], ?_, hid, hrole,
          by simp [← h2, hrest]⟩
        intro x hx
        rcases List.mem_cons.mp hx with hx1 | hx2
        · rw [hx1]; exact hr
        · exact hpre x hx2

/-- Claim C4 fails on the code in two ways: saving with a known id does not
always preserve createdAt, because a createdAt supplied in roleData
overrides the stored one through the object spread; and saving with an
unknown non-empty id does not generate a fresh id, because createRole keeps
the supplied id. -/
theorem saveRole_claim_false :
    (saveRole [plainRole "a" "A" ""] updateData 7 "role_fresh").1.createdAt = 999
    ∧ (plainRole "a" "A" "").createdAt = 1
    ∧ (saveRole [] newIdData 7 "role_fresh").1.id = "b"
    ∧ "b" ≠ "role_fresh" := by
  refine ⟨by decide, by decide, by decide, by decide⟩

/-- Claim C4 (amended): if roleData's id matches no stored role, saveRole
appends a role built by createRole, whose id is roleData's id when that is
present and non-empty and the freshly generated id otherwise (unique
provided the chosen id is not already stored), and whose createdAt and
updatedAt are the current time when roleData does not supply them; if
roleData's id matches a stored role, saveRole replaces that role's fields
with those supplied in roleData, preserves its createdAt whenever roleData
does not itself carry one, and sets updatedAt to the current time. -/
theorem saveRole_contract (roles : List Role) (d : RoleData) (now : Nat)
    (freshId : String) :
    ((∀ x ∈ roles, d.id ≠ some x.id) →
       saveRole roles d now freshId
         = (createRole d now freshId, roles ++ [createRole d now freshId])
       ∧ (createRole d now freshId).id = jsOrStr d.id freshId
       ∧ (d.createdAt = none → (createRole d now freshId).createdAt = now)
       ∧ (d.updatedAt = none → (createRole d now freshId).updatedAt = now)
       ∧ ((idsOf roles).Nodup → jsOrStr d.id freshId ∉ idsOf roles →
            (idsOf (saveRole roles d now freshId).2).Nodup))
    ∧ (∀ pre r post, roles = pre ++ r :: post →
         (∀ x ∈ pre, d.id ≠ some x.id) → d.id = some r.id →
         saveRole roles d now freshId
           = (spreadRole r d now, pre ++ spreadRole r d now :: post)
         ∧ (spreadRole r d now).updatedAt = now
         ∧ (d.createdAt = none → (spreadRole r d now).createdAt = r.createdAt)) := by
  constructor
  · intro hall
    have hnone : saveRoleGo d now roles = none :=
      (saveRoleGo_eq_none_iff d now roles).mpr hall
    have hsave : saveRole roles d now freshId
        = (createRole d now freshId, roles ++ [createRole d now freshId]) := by
      rw [saveRole, hnone]
    refine ⟨hsave, rfl, fun h => by simp [createRole, jsOrNat, h],
      fun h => by simp [createRole, jsOrNat, h], fun hnd hnotin => ?_⟩
    rw [hsave]
    have hid : (createRole d now freshId).id = jsOrStr d.id freshId := rfl
    simp [idsOf, List.nodup_append, hid]
    simp [idsOf] at hnd hnotin
    exact ⟨hnd, fun x hx hcontra => hnotin x hx (by rw [hcontra])⟩
  · intro pre r post heq hpre hr
    subst heq
    have hgo := saveRoleGo_found d now pre r post hpre hr
    have hsave : saveRole (pre ++ r :: post) d now freshId
        = (spreadRole r d now, pre ++ spreadRole r d now :: post) := by
      rw [saveRole, hgo]
    exact ⟨hsave, rfl, fun h => by simp [spreadRole, h]⟩

/-- Witness for saveRole_contract: a create at an unknown id and an update
at a known id, each with its hypotheses discharged concretely. -/
theorem saveRole_contract_witness :
    saveRole [] newIdData 7 "role_fresh"
      = (createRole newIdData 7 "role_fresh", [createRole newIdData 7 "role_fresh"])
    ∧ saveRole [plainRole "a" "A" ""] updateData 7 "role_fresh"
      = (spreadRole (plainRole "a" "A" "") updateData 7,
         [spreadRole (plainRole "a" "A" "") updateData 7]) :=
  ⟨((saveRole_contract [] newIdData 7 "role_fresh").1 (by decide)).1,
   ((saveRole_contract [plainRole "a" "A" ""] updateData 7 "role_fresh").2
      [] (plainRole "a" "A" "") [] rfl (by decide) (by decide)).1⟩

/-! Store invariants along operation traces. -/

theorem saveRole_step (roles : List Role) (d : RoleData) (now : Nat)
    (fid : String) (hid : ∀ r ∈ roles, r.id ≠ "") (hnd : (idsOf roles).Nodup)
    (hf1 : fid ≠ "") (hf2 : fid ∉ idsOf roles) :
    (∀ r ∈ (saveRole roles d now fid).2, r.id ≠ "")
    ∧ (idsOf (saveRole roles d now fid).2).Nodup := by
  cases hgo : saveRoleGo d now roles with
  | some res =>
    obtain ⟨role, roles2⟩ := res
    have hsave : (saveRole roles d now fid).2 = roles2 := by rw [saveRole, hgo]
    obtain ⟨pre, rm, post, heq, hpre, hidm, hrole, hrest⟩ :=
      saveRoleGo_some d now roles role roles2 hgo
    have hroleid : role.id = rm.id := by
      rw [hrole]
      show d.id.getD rm.id = rm.id
      rw [hidm]
      rfl
    have hids : idsOf roles2 = idsOf roles := by
      rw [hrest, heq]
      simp [idsOf, hroleid]
    constructor
    · intro r hr
      rw [hsave, hrest] at hr
      rcases List.mem_append.mp hr with hr1 | hr2
      · exact hid r (heq ▸ List.mem_append.mpr (Or.inl hr1))
      · rcases List.mem_cons.mp hr2 with hr3 | hr4
        · rw [hr3, hroleid]
          exact hid rm (heq ▸ List.mem_append.mpr (Or.inr (List.mem_cons_self rm post)))
        · exact hid r (heq ▸ List.mem_append.mpr (Or.inr (List.mem_cons_of_mem rm hr4)))
    · rw [hsave, hids]
      exact hnd
  | none =>
    have hsave : (saveRole roles d now fid).2 = roles ++ [createRole d now fid] := by
      rw [saveRole, hgo]
    have hall := (saveRoleGo_eq_none_iff d now roles).mp hgo
    have hnew : (createRole d now fid).id ≠ "" ∧ (createRole d now fid).id ∉ idsOf roles := by
      show jsOrStr d.id fid ≠ "" ∧ jsOrStr d.id fid ∉ idsOf roles
      cases hd : d.id with
      | none => exact ⟨hf1, hf2⟩
      | some s =>
        by_cases hs : s = ""
        · simp only [jsOrStr, if_pos hs]
          exact ⟨hf1, hf2⟩
        · simp only [jsOrStr, if_neg hs]
          refine ⟨hs, fun hmem => ?_⟩
          obtain ⟨r, hr, hrid⟩ := List.mem_map.mp hmem
          exact hall r hr (by rw [hd, hrid])
    constructor
    · intro r hr
      rw [hsave] at hr
      rcases List.mem_append.mp hr with hr1 | hr2
      · exact hid r hr1
      · rw [List.mem_singleton.mp hr2]
        exact hnew.1
    · rw [hsave]
      simp only [idsOf, List.map_append, List.map_cons, List.map_nil,
        List.nodup_append]
      refine ⟨hnd, by simp, fun x hx hmem => ?_⟩
      rw [List.mem_singleton] at hmem
      rw [hmem] at hx
      exact hnew.2 hx

theorem saveRole_names_step (roles : List Role) (d : RoleData) (now : Nat)
    (fid : String) (hn : ∀ r ∈ roles, r.name ≠ "")
    (hdn : ∃ s, d.name = some s ∧ s ≠ "") :
    ∀ r ∈ (saveRole roles d now fid).2, r.name ≠ "" := by
  obtain ⟨s, hds, hs⟩ := hdn
  cases hgo : saveRoleGo d now roles with
  | some res =>
    obtain ⟨role, roles2⟩ := res
    have hsave : (saveRole roles d now fid).2 = roles2 := by rw [saveRole, hgo]
    obtain ⟨pre, rm, post, heq, hpre, hidm, hrole, hrest⟩ :=
      saveRoleGo_some d now roles role roles2 hgo
    have hrolename : role.name = s := by
      rw [hrole]
      show d.name.getD rm.name = s
      rw [hds]
      rfl
    intro r hr
    rw [hsave, hrest] at hr
    rcases List.mem_append.mp hr with hr1 | hr2
    · exact hn r (heq ▸ List.mem_append.mpr (Or.inl hr1))
    · rcases List.mem_cons.mp hr2 with hr3 | hr4
      · rw [hr3, hrolename]; exact hs
      · exact hn r (heq ▸ List.mem_append.mpr (Or.inr (List.mem_cons_of_mem rm hr4)))
  | none =>
    have hsave : (saveRole roles d now fid).2 = roles ++ [createRole d now fid] := by
      rw [saveRole, hgo]
    intro r hr
    rw [hsave] at hr
    rcases List.mem_append.mp hr with hr1 | hr2
    · exact hn r hr1
    · rw [List.mem_singleton.mp hr2]
      show jsOrStr d.name "" ≠ ""
      rw [hds]
      simp [jsOrStr, hs]

theorem deleteRole_sublist (roles : List Role) (id : String) :
    (deleteRole roles id).2.Sublist roles := by
  rw [deleteRole]
  split
  · exact List.Sublist.refl roles
  · exact List.filter_sublist roles

theorem applyOps_inv (ops : List StoreOp) : ∀ roles, freshOk roles ops = true →
    (∀ r ∈ roles, r.id ≠ "") → (idsOf roles).Nodup →
    (∀ r ∈ applyOps roles ops, r.id ≠ "") ∧ (idsOf (applyOps roles ops)).Nodup := by
  induction ops with
  | nil => exact fun roles _ h1 h2 => ⟨h1, h2⟩
  | cons op rest ih =>
    intro roles hf h1 h2
    cases op with
    | save d now fid =>
      rw [freshOk, Bool.and_eq_true, Bool.and_eq_true] at hf
      obtain ⟨⟨hfid, hmem⟩, hfrest⟩ := hf
      have hfid2 : fid ≠ "" := by simpa using hfid
      have hmem2 : fid ∉ idsOf roles := by simpa using hmem
      have step := saveRole_step roles d now fid h1 h2 hfid2 hmem2
      rw [applyOps]
      exact ih _ hfrest step.1 step.2
    | erase id =>
      rw [freshOk] at hf
      have hsub := deleteRole_sublist roles id
      rw [applyOps]
      refine ih _ hf (fun r hr => h1 r (hsub.subset hr)) ?_
      exact ((hsub.map Role.id).nodup h2)

theorem applyOps_names (ops : List StoreOp) : ∀ roles, namesOk ops = true →
    (∀ r ∈ roles, r.name ≠ "") → ∀ r ∈ applyOps roles ops, r.name ≠ "" := by
  induction ops with
  | nil => exact fun roles _ h => h
  | cons op rest ih =>
    intro roles hok hn
    cases op with
    | save d now fid =>
      rw [namesOk, Bool.and_eq_true] at hok
      obtain ⟨hname, hrest⟩ := hok
      have hdn : ∃ s, d.name = some s ∧ s ≠ "" := by
        cases hd : d.name with
        | none => rw [hd] at hname; exact absurd hname (by simp)
        | some s =>
          rw [hd] at hname
          exact ⟨s, rfl, by simpa using hname⟩
      rw [applyOps]
      exact ih _ hrest (saveRole_names_step roles d now fid hn hdn)
    | erase id =>
      rw [namesOk] at hok
      have hsub := deleteRole_sublist roles id
      rw [applyOps]
      exact ih _ hok (fun r hr => hn r (hsub.subset hr))

/-- Claim C7 fails on the code for the name part: the storage layer does
not enforce a non-empty name, so a save whose roleData carries no name
stores a role whose name is the empty string, even along a trace whose
generated ids are fresh. -/
theorem store_invariant_claim_false :
    freshOk [] [StoreOp.save emptyRoleData 5 "role_f"] = true
    ∧ (applyOps [] [StoreOp.save emptyRoleData 5 "role_f"]).map Role.name = [""] := by
  refine ⟨by decide, by decide⟩

/-- Claim C7 (amended): along every operation trace from the empty store
whose generated ids are fresh (non-empty and unused at the moment of each
save), every stored role has a non-empty id and no two stored roles share
an id; every stored role additionally has a non-empty name provided every
save of the trace supplies a non-empty name, which the role editor
guarantees but the storage layer itself does not. -/
theorem store_invariant (ops : List StoreOp) (hf : freshOk [] ops = true) :
    (∀ r ∈ applyOps [] ops, r.id ≠ "")
    ∧ (idsOf (applyOps [] ops)).Nodup
    ∧ (namesOk ops = true → ∀ r ∈ applyOps [] ops, r.name ≠ "") := by
  have hmain := applyOps_inv ops [] hf (by simp) (by simp [idsOf])
  exact ⟨hmain.1, hmain.2, fun hok => applyOps_names ops [] hok (by simp)⟩

/-- Witness for store_invariant on a concrete trace: a save with a fresh id
and non-empty name followed by a delete. -/
theorem store_invariant_witness :
    freshOk [] witnessOps = true
    ∧ ((∀ r ∈ applyOps [] witnessOps, r.id ≠ "")
       ∧ (idsOf (applyOps [] witnessOps)).Nodup
       ∧ (namesOk witnessOps = true → ∀ r ∈ applyOps [] witnessOps, r.name ≠ "")) :=
  ⟨by decide, store_invariant witnessOps (by decide)⟩

/-! Dropdown grouping. -/

theorem lexLe_total : ∀ as bs : List Char, lexLe as bs = true ∨ lexLe bs as = true := by
  intro as
  induction as with
  | nil => intro bs; left; rfl
  | cons a as ih =>
    intro bs
    cases bs with
    | nil => right; rfl
    | cons b bs2 =>
      rw [lexLe, lexLe]
      by_cases h1 : a.toNat < b.toNat
      · left; rw [if_pos h1]
      · by_cases h2 : a.toNat = b.toNat
        · rcases ih bs2 with h | h
          · left; rw [if_neg h1, if_pos h2]; exact h
          · right; rw [if_neg (by omega), if_pos (by omega)]; exact h
        · right; rw [if_pos (by omega)]

theorem lexLe_trans : ∀ as bs cs : List Char,
    lexLe as bs = true → lexLe bs cs = true → lexLe as cs = true := by
  intro as
  induction as with
  | nil => intro bs cs _ _; rfl
  | cons a as ih =>
    intro bs cs hab hbc
    cases bs with
    | nil => rw [lexLe] at hab; exact absurd hab (by simp)
    | cons b bs2 =>
      cases cs with
      | nil => rw [lexLe] at hbc; exact absurd hbc (by simp)
      | cons c cs2 =>
        rw [lexLe] at hab hbc ⊢
        by_cases h1 : a.toNat < b.toNat
        · by_cases h2 : b.toNat < c.toNat
          · rw [if_pos (by omega)]
          · by_cases h3 : b.toNat = c.toNat
            · rw [if_pos (by omega)]
            · rw [if_neg h2, if_neg h3] at hbc; exact absurd hbc (by simp)
        · by_cases h4 : a.toNat = b.toNat
          · rw [if_neg h1, if_pos h4] at hab
            by_cases h2 : b.toNat < c.toNat
            · rw [if_pos (by omega)]
            · by_cases h3 : b.toNat = c.toNat
              · rw [if_neg h2, if_pos h3] at hbc
                rw [if_neg (by omega), if_pos (by omega)]
                exact ih bs2 cs2 hab hbc
              · rw [if_neg h2, if_neg h3] at hbc; exact absurd hbc (by simp)
          · rw [if_neg h1, if_neg h4] at hab; exact absurd hab (by simp)

theorem lookup_addToGroup (g : List (String × List Role)) (a : String) (r : Role)
    (x : String) :
    lookupGroup (addToGroup g a r) x
      = if x = a then lookupGroup g x ++ [r] else lookupGroup g x := by
  induction g with
  | nil =>
    by_cases h : x = a
    · subst h; simp [addToGroup, lookupGroup]
    · simp [addToGroup, lookupGroup, h, Ne.symm h]
  | cons hd t ih =>
    obtain ⟨b, rs⟩ := hd
    rw [addToGroup]
    by_cases hba : b = a
    · subst hba
      rw [if_pos rfl]
      by_cases hbx : b = x
      · subst hbx
        simp [lookupGroup]
      · simp [lookupGroup, hbx, Ne.symm hbx]
    · rw [if_neg hba]
      by_cases hbx : b = x
      · subst hbx
        have hxa : ¬ b = a := hba
        simp [lookupGroup, hxa]
      · simp [lookupGroup, hbx, ih]

theorem keys_mem_addToGroup (g : List (String × List Role)) (a : String) (r : Role)
    (x : String) :
    x ∈ (addToGroup g a r).map Prod.fst ↔ x ∈ g.map Prod.fst ∨ x = a := by
  induction g with
  | nil => simp [addToGroup]
  | cons hd t ih =>
    obtain ⟨b, rs⟩ := hd
    rw [addToGroup]
    by_cases hba : b = a
    · subst hba
      rw [if_pos rfl]
      simp only [List.map_cons, List.mem_cons]
      constructor
      · intro h; exact Or.inl h
      · rintro (h | h)
        · exact h
        · exact Or.inl h
    · rw [if_neg hba]
      simp only [List.map_cons, List.mem_cons, ih]
      tauto

theorem groupFold_snd (roles : List Role) :
    ∀ acc, (roles.foldl groupStep acc).2
      = acc.2 ++ roles.filter (fun r => r.area == "") := by
  induction roles with
  | nil => intro acc; simp
  | cons r t ih =>
    intro acc
    rw [List.foldl_cons, List.filter_cons]
    by_cases h : r.area = ""
    · rw [groupStep, if_neg (by simp [h]), ih]
      simp [h]
    · rw [groupStep, if_pos h, ih]
      simp [h]

theorem groupFold_lookup (roles : List Role) :
    ∀ acc (a : String), a ≠ "" →
      lookupGroup (roles.foldl groupStep acc).1 a
        = lookupGroup acc.1 a ++ roles.filter (fun r => r.area == a) := by
  induction roles with
  | nil => intro acc a _; simp
  | cons r t ih =>
    intro acc a ha
    rw [List.foldl_cons, List.filter_cons]
    by_cases h : r.area = ""
    · rw [groupStep, if_neg (by simp [h]), ih _ a ha]
      have : (r.area == a) = false := by
        simp [h]
        intro hcontra
        exact ha hcontra.symm
      simp [this]
    · rw [groupStep, if_pos h, ih _ a ha, lookup_addToGroup]
      by_cases hra : r.area = a
      · rw [if_pos hra.symm]
        simp [hra, List.append_assoc]
      · rw [if_neg (fun hax => hra hax.symm)]
        simp [hra]

theorem groupFold_keys (roles : List Role) :
    ∀ acc (x : String),
      x ∈ (roles.foldl groupStep acc).1.map Prod.fst
        ↔ x ∈ acc.1.map Prod.fst ∨ (x ≠ "" ∧ ∃ r ∈ roles, r.area = x) := by
  induction roles with
  | nil => intro acc x; simp
  | cons r t ih =>
    intro acc x
    have hsplit : (∃ r2 ∈ r :: t, r2.area = x)
        ↔ (r.area = x ∨ ∃ r2 ∈ t, r2.area = x) := by
      constructor
      · rintro ⟨r2, hr2, hx2⟩
        rcases List.mem_cons.mp hr2 with h2 | h2
        · exact Or.inl (h2 ▸ hx2)
        · exact Or.inr ⟨r2, h2, hx2⟩
      · rintro (h2 | ⟨r2, hr2, hx2⟩)
        · exact ⟨r, List.mem_cons_self r t, h2⟩
        · exact ⟨r2, List.mem_cons_of_mem r hr2, hx2⟩
    rw [List.foldl_cons, hsplit]
    by_cases h : r.area = ""
    · rw [groupStep, if_neg (by simp [h]), ih]
      constructor
      · rintro (hx | hx)
        · exact Or.inl hx
        · exact Or.inr ⟨hx.1, Or.inr hx.2⟩
      · rintro (hx | ⟨hx1, (hx2 | hx2)⟩)
        · exact Or.inl hx
        · rw [h] at hx2
          exact absurd hx2.symm hx1
        · exact Or.inr ⟨hx1, hx2⟩
    · rw [groupStep, if_pos h, ih, keys_mem_addToGroup]
      constructor
      · rintro ((hx | hx) | hx)
        · exact Or.inl hx
        · exact Or.inr ⟨by rw [hx]; exact h, Or.inl hx.symm⟩
        · exact Or.inr ⟨hx.1, Or.inr hx.2⟩
      · rintro (hx | ⟨hx1, (hx2 | hx2)⟩)
        · exact Or.inl (Or.inl hx)
        · exact Or.inl (Or.inr hx2.symm)
        · exact Or.inr ⟨hx1, hx2⟩

theorem flatMap_congr {α β : Type} (l : List α) (f g : α → List β)
    (h : ∀ a ∈ l, f a = g a) : l.flatMap f = l.flatMap g := by
  induction l with
  | nil => rfl
  | cons a t ih =>
    rw [List.flatMap_cons, List.flatMap_cons, h a (List.mem_cons_self a t),
      ih (fun x hx => h x (List.mem_cons_of_mem a hx))]

/-- Claim C5: the dropdown renders the roles lacking an area first in their
original relative order, then for each area name in lexicographic order an
area header followed by that area's roles in original relative order; the
listed area names are exactly the non-empty areas occurring in the store;
on the four-role example the rendered order is B, then the Eng header with
A and C, then the Ops header with D. -/
theorem dropdown_spec :
    (∀ roles : List Role,
      dropdownEntries roles
        = (roles.filter (fun r => r.area == "")).map DropdownEntry.roleItem
          ++ (sortedAreas roles).flatMap (fun a =>
               DropdownEntry.areaHeader a
                 :: (roles.filter (fun r => r.area == a)).map DropdownEntry.roleItem)
      ∧ List.Sorted strLe (sortedAreas roles)
      ∧ (∀ a, a ∈ sortedAreas roles ↔ a ≠ "" ∧ ∃ r ∈ roles, r.area = a))
    ∧ dropdownEntries [exRoleA, exRoleB, exRoleC, exRoleD]
        = [DropdownEntry.roleItem exRoleB,
           DropdownEntry.areaHeader "Eng", DropdownEntry.roleItem exRoleA,
           DropdownEntry.roleItem exRoleC,
           DropdownEntry.areaHeader "Ops", DropdownEntry.roleItem exRoleD] := by
  have hmem : ∀ roles (a : String),
      a ∈ sortedAreas roles ↔ a ≠ "" ∧ ∃ r ∈ roles, r.area = a := by
    intro roles a
    rw [sortedAreas, (List.perm_insertionSort strLe (areaKeys roles)).mem_iff,
      areaKeys, groupRoles, groupFold_keys roles ([], []) a]
    simp
  refine ⟨fun roles => ⟨?_, ?_, hmem roles⟩, by decide⟩
  · rw [dropdownEntries]
    congr 1
    · rw [groupRoles, groupFold_snd roles ([], [])]
      simp
    · refine flatMap_congr _ _ _ (fun a ha => ?_)
      have ha2 := (hmem roles a).mp ha
      rw [groupRoles, groupFold_lookup roles ([], []) a ha2.1]
      simp [lookupGroup]
  · rw [sortedAreas]
    exact @List.sorted_insertionSort String strLe _
      ⟨fun a b => lexLe_total a.data b.data⟩
      ⟨fun a b c hab hbc => lexLe_trans a.data b.data c.data hab hbc⟩
      (areaKeys roles)

/-! Polling for the prompt element. -/

theorem pollTimes_spec (found : Nat → Bool) :
    ∀ d k, k + d = 31 → ∃ m, m ≤ d
      ∧ pollTimes found k = (List.range m).map (fun i => POLL_INTERVAL_MS * (k + i)) := by
  intro d
  induction d with
  | zero =>
    intro k hk
    refine ⟨0, Nat.le_refl 0, ?_⟩
    rw [pollTimes, if_neg (by simp only [POLL_INTERVAL_MS, POLL_TIMEOUT_MS]; omega)]
    simp
  | succ d ih =>
    intro k hk
    rw [pollTimes, if_pos (by simp only [POLL_INTERVAL_MS, POLL_TIMEOUT_MS]; omega)]
    by_cases hf : found (POLL_INTERVAL_MS * k) = true
    · rw [if_pos hf]
      refine ⟨1, by omega, ?_⟩
      rw [show List.range 1 = [0] from rfl, List.map_cons, List.map_nil, Nat.add_zero]
    · rw [if_neg hf]
      obtain ⟨m, hm, heq⟩ := ih (k + 1) (by omega)
      refine ⟨m + 1, by omega, ?_⟩
      rw [heq, List.range_succ_eq_map, List.map_cons, List.map_map]
      congr 1
      refine List.map_congr_left (fun a ha => ?_)
      simp only [Function.comp_apply, Nat.succ_eq_add_one]
      ring

/-- Claim C9: the polling loop runs the waitForPrompt callback at a fixed
1000 ms interval starting 1000 ms after initialisation; the schedule of
executed polls is an initial segment of 1000, 2000, 3000, and so on, of at
most 30 steps, and no executed poll is later than the 30000 ms timeout that
clears the interval; when the timeout fires nothing else happens, so the
engine stays inactive for the page load. -/
theorem polling_bounded (found : Nat → Bool) :
    ∃ m, m ≤ 30
      ∧ runPolls found = (List.range m).map (fun i => POLL_INTERVAL_MS * (1 + i))
      ∧ (runPolls found).length ≤ 30
      ∧ ∀ t ∈ runPolls found, POLL_INTERVAL_MS ≤ t ∧ t ≤ POLL_TIMEOUT_MS := by
  obtain ⟨m, hm, heq⟩ := pollTimes_spec found 30 1 rfl
  rw [runPolls]
  refine ⟨m, hm, heq, ?_, ?_⟩
  · rw [heq]
    simp [hm]
  · intro t ht
    rw [heq] at ht
    obtain ⟨i, hi, hteq⟩ := List.mem_map.mp ht
    have him : i < m := List.mem_range.mp hi
    rw [← hteq]
    simp only [POLL_INTERVAL_MS, POLL_TIMEOUT_MS]
    omega

end Agentique
